import Mathlib

/-!
Shallow embedding of the Paymi repository (auth_backend.py, contact_backend.py,
receipt_backend.py) for checking the natural-language specification.

Modelling conventions:
* MongoDB collections become Lean lists of structures; a generated `_id` becomes
  the `mongoId : Nat` field, and document insertion order is list order.
* Monetary values (Python floats in the source) are modelled as exact rationals
  `ℚ`; every operation the source performs on them (addition, subtraction,
  `min`, comparison) is exact on the inputs the claims exercise, so no claim
  depends on floating-point rounding.
* `datetime.utcnow()` timestamps become `Nat` values threaded in as parameters.
* A raised `HTTPException(status_code, detail)` becomes the `HTTPError`
  structure; handlers that write to the database return the (possibly updated)
  collection alongside an `Except HTTPError response` value.  All error raises
  modelled here occur in the source before any database write, so the state
  component equals the input state on the error paths, exactly as in the code.
* Detail strings that interpolate numeric values in the source are modelled by
  fixed strings (the claims only depend on status codes and on the equality of
  whole messages within a single operation); detail strings interpolating other
  strings keep the interpolation, with the source's quote characters dropped.
* The `created_at`/`updated_at` bookkeeping fields that no claim mentions are
  omitted from `User` and `Contact`; `UserDebt.created_at` is kept because
  payment allocation sorts by it.

They are translated function by function from the Python source; each
definition's doc comment names the source function it embeds.
-/

namespace Paymi

/-- A raised `HTTPException`: status code and detail message.  Error kinds used
by the spec map to status codes as in FastAPI: `InvalidArgument`/`Conflict`
are 400, `Unauthorized` is 401, `NotFound` is 404, internal errors are 500. -/
structure HTTPError where
  status : Nat
  detail : String
deriving DecidableEq, Repr

/-! ## Identity service (src/auth_backend.py) -/

/-- A document of the `users` collection.  The stored `password` field holds
the hash produced at registration time, never the raw password. -/
structure User where
  mongoId : Nat
  email : String
  username : String
  password : String
  wallet_address : String
  first_name : String
  last_name : String
deriving DecidableEq, Repr

/-- The request body of `POST /api/register` (`UserRegister` in the source). -/
structure UserRegister where
  email : String
  username : String
  password : String
  wallet_address : String
  first_name : String
  last_name : String
deriving DecidableEq, Repr

/-- The public user fields returned by register and login.  This structure has
no password field at all, mirroring the response dictionaries in the source,
which never include the stored hash. -/
structure PublicUser where
  id : Nat
  email : String
  username : String
  wallet_address : String
  first_name : String
  last_name : String
deriving DecidableEq, Repr

/-- Embeds `register_user` (src/auth_backend.py lines 92-157).  The password
hash function (`hash_password`, a SHA-256 hex digest in the source) is kept
abstract as the parameter `hash`; the claims depend only on digest equality.
The duplicate-key exception handler at insert time (lines 130-140) is
unreachable in this sequential model because the pre-checks already cover
every uniqueness violation, so it is not modelled. -/
def register_user (users : List User) (hash : String → String) (r : UserRegister)
    (nextId : Nat) : List User × Except HTTPError PublicUser :=
  if users.any (fun u => u.email == r.email) then
    (users, .error ⟨400, "Email already registered"⟩)
  else if users.any (fun u => u.username == r.username) then
    (users, .error ⟨400, "Username already taken"⟩)
  else if users.any (fun u => u.wallet_address == r.wallet_address) then
    (users, .error ⟨400, "Wallet address already registered"⟩)
  else
    let doc : User :=
      ⟨nextId, r.email, r.username, hash r.password, r.wallet_address,
        r.first_name, r.last_name⟩
    (users ++ [doc],
     .ok ⟨nextId, r.email, r.username, r.wallet_address, r.first_name, r.last_name⟩)

/-- Embeds `login_user` (src/auth_backend.py lines 160-190): find the first
user with the given email, then compare the stored hash with the hash of the
supplied password; both failure modes raise the same 401 error. -/
def login_user (users : List User) (hash : String → String) (email password : String) :
    Except HTTPError PublicUser :=
  match users.find? (fun u => u.email == email) with
  | none => .error ⟨401, "Invalid email or password"⟩
  | some u =>
    if u.password == hash password then
      .ok ⟨u.mongoId, u.email, u.username, u.wallet_address, u.first_name, u.last_name⟩
    else
      .error ⟨401, "Invalid email or password"⟩

/-! ## Ledger service data model (src/contact_backend.py) -/

/-- A document of the `contacts` collection. -/
structure Contact where
  mongoId : Nat
  first_name : String
  last_name : String
  username : String
  email : String
  wallet_id : String
deriving DecidableEq, Repr

/-- A document of the `user_debts` collection: one individualized debt record
per (creditor, debtor, split event).  `items` is kept as an opaque list of
strings; no claim inspects the contents of an item beyond the list's
identity. -/
structure UserDebt where
  mongoId : Nat
  creditor_email : String
  creditor_name : String
  debtor_email : String
  amount : ℚ
  paid_back : ℚ
  items : List String
  created_at : Nat
deriving DecidableEq, Repr

/-- The sort key used by `record_payment`: ascending `created_at`. -/
def byCreated (a b : UserDebt) : Prop := a.created_at ≤ b.created_at

instance : DecidableRel byCreated := fun a b => Nat.decLe a.created_at b.created_at

instance : IsTotal UserDebt byCreated := ⟨fun a b => Nat.le_total a.created_at b.created_at⟩

instance : IsTrans UserDebt byCreated := ⟨fun _ _ _ h h2 => Nat.le_trans h h2⟩

/-- Python's `sorted(debts, key=lambda d: d.get("created_at", ...))` is a
stable sort by `created_at`; `List.insertionSort` with the total preorder
`byCreated` is stable in the same sense (equal keys keep list order). -/
def sortByCreated (l : List UserDebt) : List UserDebt :=
  List.insertionSort byCreated l

/-- The filter `{"debtor_email": debtor, "creditor_email": creditor}` used by
`record_payment` to gather the debt records between one pair. -/
def debtKeyed (debtor creditor : String) (d : UserDebt) : Bool :=
  d.debtor_email == debtor && d.creditor_email == creditor

/-- Embeds the allocation loop of `record_payment` (lines 446-472): walk the
records (already sorted oldest first), break once the remaining payment is
exhausted, skip records with no positive remainder, and otherwise pay
`min(remaining_payment, debt_remaining)` into the record. -/
def allocStep (payment : ℚ) : List UserDebt → List UserDebt
  | [] => []
  | d :: ds =>
    if payment ≤ 0 then d :: ds
    else
      let debt_remaining := d.amount - d.paid_back
      if 0 < debt_remaining then
        let pay := min payment debt_remaining
        { d with paid_back := d.paid_back + pay } :: allocStep (payment - pay) ds
      else
        d :: allocStep payment ds

/-- Embeds the `update_one({"_id": ...}, {"$set": {"paid_back": ...}})` calls:
each record of the collection whose `_id` has an updated version is replaced
by it (Mongo `_id`s are unique, which theorems assume via a `Nodup`
hypothesis). -/
def applyUpdates (upd : List UserDebt) (s : List UserDebt) : List UserDebt :=
  s.map (fun d => ((upd.find? (fun u => u.mongoId == d.mongoId)).getD d))

/-- The success payload of `POST /record_payment` (totals echoed by the
handler; the interpolated human-readable message is not modelled). -/
structure PaymentResponse where
  total_debt : ℚ
  total_paid_back : ℚ
  remaining_debt : ℚ
deriving DecidableEq, Repr

/-- Embeds `record_payment` (src/contact_backend.py lines 411-484).  Errors
are raised before any `update_one`, so the collection is returned unchanged on
every error path, exactly as in the source. -/
def record_payment (debtor_email contact_email : String) (amount : ℚ)
    (s : List UserDebt) : List UserDebt × Except HTTPError PaymentResponse :=
  if debtor_email = "" then
    (s, .error ⟨400, "debtor_email is required"⟩)
  else if contact_email = "" then
    (s, .error ⟨400, "contact_email (creditor_email) is required"⟩)
  else
    let debts := s.filter (debtKeyed debtor_email contact_email)
    if debts.isEmpty then
      (s, .error ⟨404, "No debt records found where " ++ debtor_email ++ " owes " ++ contact_email⟩)
    else
      let total_debt := (debts.map (fun d => d.amount)).sum
      let total_paid_back := (debts.map (fun d => d.paid_back)).sum
      let remaining_debt := total_debt - total_paid_back
      if remaining_debt < amount then
        (s, .error ⟨400, "Payment amount exceeds remaining debt"⟩)
      else
        (applyUpdates (allocStep amount (sortByCreated debts)) s,
         .ok ⟨total_debt, total_paid_back + amount, remaining_debt - amount⟩)

/-! ## Ledger service: `GET /contacts` with a viewer (src/contact_backend.py lines 169-364) -/

/-- A record of `user_debts` that contributes to the `owes_me_debts`
dictionary key `e` for viewer `u` (lines 194-200). -/
def pOwes (u e : String) (d : UserDebt) : Bool :=
  d.creditor_email == u && d.debtor_email == e

/-- A record of `user_debts` that contributes to the `i_owe_debts`
dictionary key `e` for viewer `u` (lines 204-221). -/
def pIOwe (u e : String) (d : UserDebt) : Bool :=
  d.debtor_email == u && d.creditor_email == e

/-- Key `e` is present in `owes_me_debts`: some record has the viewer as
creditor and `e` as debtor, and the `if debtor_email:` guard makes the empty
string never a key. -/
def owesMem (u e : String) (ds : List UserDebt) : Bool :=
  e != "" && ds.any (pOwes u e)

/-- The `total` accumulated under `owes_me_debts[e]`. -/
def owesTotal (u e : String) (ds : List UserDebt) : ℚ :=
  ((ds.filter (pOwes u e)).map (fun d => d.amount)).sum

/-- The `paid_back` accumulated under `owes_me_debts[e]`. -/
def owesPaid (u e : String) (ds : List UserDebt) : ℚ :=
  ((ds.filter (pOwes u e)).map (fun d => d.paid_back)).sum

/-- Key `e` is present in `i_owe_debts` (guarded by `if creditor_email:`). -/
def ioweMem (u e : String) (ds : List UserDebt) : Bool :=
  e != "" && ds.any (pIOwe u e)

/-- The `total` accumulated under `i_owe_debts[e]`. -/
def ioweTotal (u e : String) (ds : List UserDebt) : ℚ :=
  ((ds.filter (pIOwe u e)).map (fun d => d.amount)).sum

/-- The `paid_back` accumulated under `i_owe_debts[e]`. -/
def iowePaid (u e : String) (ds : List UserDebt) : ℚ :=
  ((ds.filter (pIOwe u e)).map (fun d => d.paid_back)).sum

/-- The `creditor_name` kept in `i_owe_debts[e]` (lines 206-221): initialized
from the first matching record and overwritten by every later nonempty name,
so it ends as the last nonempty `creditor_name`, or `""` when none is
nonempty. -/
def ioweName (u e : String) (ds : List UserDebt) : String :=
  ((((ds.filter (pIOwe u e)).map (fun d => d.creditor_name)).filter
      (fun n => n != "")).getLast?).getD ""

/-- Python's `name.split(" ", 1)` as used on a creditor display name
(lines 258-264): the part before the first space and the remainder. -/
def splitNameOnce (s : String) : String × String :=
  match s.splitOn " " with
  | [] => (s, "")
  | [a] => (a, "")
  | a :: rest => (a, String.intercalate " " rest)

/-- One element of the `contacts` array returned by `GET /contacts`.  The
projection keeps every field a claim can observe; `is_user` marks the entries
synthesized from the `users` collection (lines 314 and 358). -/
structure ContactEntry where
  email : String
  first_name : String
  last_name : String
  username : String
  wallet_id : String
  category : String
  total_debt : ℚ
  paid_back : ℚ
  is_user : Bool
deriving DecidableEq, Repr

/-- Embeds the per-stored-contact categorization of `get_contacts`
(lines 227-283): an `if / elif / else` on dictionary membership, with the
positive-net test and the `creditor_name` display override nested inside. -/
def baseEntry (u : String) (ds : List UserDebt) (c : Contact) : ContactEntry :=
  if owesMem u c.email ds then
    let total := owesTotal u c.email ds
    let paid := owesPaid u c.email ds
    if 0 < total - paid then
      ⟨c.email, c.first_name, c.last_name, c.username, c.wallet_id, "owes_me",
        total - paid, paid, false⟩
    else
      ⟨c.email, c.first_name, c.last_name, c.username, c.wallet_id, "neutral", 0, 0, false⟩
  else if ioweMem u c.email ds then
    let total := ioweTotal u c.email ds
    let paid := iowePaid u c.email ds
    if 0 < total - paid then
      let cn := ioweName u c.email ds
      let names := if cn != "" then splitNameOnce cn else (c.first_name, c.last_name)
      ⟨c.email, names.1, names.2, c.username, c.wallet_id, "i_owe",
        total - paid, paid, false⟩
    else
      ⟨c.email, c.first_name, c.last_name, c.username, c.wallet_id, "neutral", 0, 0, false⟩
  else
    ⟨c.email, c.first_name, c.last_name, c.username, c.wallet_id, "neutral", 0, 0, false⟩

/-- Keys of a Python dict in insertion order: first occurrence of each
element, original order kept. -/
def firstDedupAux : List String → List String → List String
  | [], _ => []
  | a :: l, seen => if seen.contains a then firstDedupAux l seen else a :: firstDedupAux l (a :: seen)

/-- Keys of a Python dict built by repeated insertion, in iteration order. -/
def firstDedup (l : List String) : List String :=
  firstDedupAux l []

/-- Embeds one iteration of the loop that synthesizes `owes_me` entries for
debtors absent from the contacts collection (lines 289-316). -/
def addOwesSynth (u : String) (ds : List UserDebt) (users : List User)
    (acc : List ContactEntry) (e : String) : List ContactEntry :=
  if e == u then acc
  else if acc.any (fun c => c.email == e) then acc
  else
    match users.find? (fun x => x.email == e) with
    | none => acc
    | some du =>
      let total := owesTotal u e ds
      let paid := owesPaid u e ds
      if 0 < total - paid then
        acc ++ [⟨e, du.first_name, du.last_name, du.username, du.wallet_address,
                 "owes_me", total - paid, paid, true⟩]
      else acc

/-- Embeds one iteration of the loop that synthesizes `i_owe` entries for
creditors absent from the contacts collection (lines 319-360), including the
creditor display-name override. -/
def addIoweSynth (u : String) (ds : List UserDebt) (users : List User)
    (acc : List ContactEntry) (e : String) : List ContactEntry :=
  if e == u then acc
  else if acc.any (fun c => c.email == e) then acc
  else
    match users.find? (fun x => x.email == e) with
    | none => acc
    | some cu =>
      let total := ioweTotal u e ds
      let paid := iowePaid u e ds
      if 0 < total - paid then
        let cn := ioweName u e ds
        let names := if cn != "" then splitNameOnce cn else (cu.first_name, cu.last_name)
        acc ++ [⟨e, names.1, names.2, cu.username, cu.wallet_address,
                 "i_owe", total - paid, paid, true⟩]
      else acc

/-- Embeds `get_contacts` with a viewer (src/contact_backend.py lines
186-362): categorize every stored contact other than the viewer, then append
synthesized entries for debtors and creditors that have outstanding balances
with the viewer but are not yet listed.  The viewerless mode (lines 174-185)
is not modelled; no claim concerns it. -/
def get_contacts (u : String) (contacts : List Contact) (ds : List UserDebt)
    (users : List User) : List ContactEntry :=
  let base := (contacts.filter (fun c => c.email ≠ u)).map (baseEntry u ds)
  let owesKeys :=
    firstDedup ((ds.filter (fun d => d.creditor_email == u && d.debtor_email != "")).map
      (fun d => d.debtor_email))
  let withOwes := owesKeys.foldl (addOwesSynth u ds users) base
  let ioweKeys :=
    firstDedup ((ds.filter (fun d => d.debtor_email == u && d.creditor_email != "")).map
      (fun d => d.creditor_email))
  ioweKeys.foldl (addIoweSynth u ds users) withOwes

/-! ## Ledger service: `POST /confirm_split` (src/contact_backend.py lines 487-558) -/

/-- One element of the `results` array of `POST /confirm_split`. -/
structure SplitResultEntry where
  participant_email : String
  status : String
  message : Option String
  amount_added : Option ℚ
deriving DecidableEq, Repr

/-- The success payload of `POST /confirm_split` (the interpolated summary
message is not modelled). -/
structure SplitResponse where
  status : String
  results : List SplitResultEntry
deriving DecidableEq, Repr

/-- A participant resolves when it is a known user, or failing that a known
contact (lines 517-528). -/
def resolvable (users : List User) (contacts : List Contact) (e : String) : Bool :=
  users.any (fun x => x.email == e) || contacts.any (fun c => c.email == e)

/-- Embeds the sender display-name resolution (lines 505-509): an explicitly
supplied nonempty name wins; otherwise first+last name of the sender's user
record (stripped), falling back to the username, falling back to the supplied
value (empty). -/
def resolveSenderName (sender_name : Option String) (sender_user : Option User) : String :=
  let s0 := sender_name.getD ""
  if s0 == "" then
    match sender_user with
    | some u =>
      let full := (u.first_name ++ " " ++ u.last_name).trim
      if full == "" then u.username else full
    | none => s0
  else s0

/-- The fresh `user_debts` document inserted per resolved participant
(lines 531-542). -/
def mkSplitDebt (sender_email sname p : String) (app : ℚ) (items : List String)
    (now id : Nat) : UserDebt :=
  ⟨id, sender_email, sname, p, app, 0, items, now⟩

/-- The debt records created for a list of resolved participants, with
consecutive generated ids. -/
def mkRecords (sender_email sname : String) (app : ℚ) (items : List String)
    (now : Nat) : List String → Nat → List UserDebt
  | [], _ => []
  | p :: ps, nid => mkSplitDebt sender_email sname p app items now nid :: mkRecords sender_email sname app items now ps (nid + 1)

/-- The `results` entry produced for one participant: a success entry, or the
per-participant error entry when the participant is neither a user nor a
contact. -/
def splitEntry (users : List User) (contacts : List Contact) (app : ℚ)
    (p : String) : SplitResultEntry :=
  if resolvable users contacts p then
    ⟨p, "success", none, some app⟩
  else
    ⟨p, "error",
      some ("Participant with email " ++ p ++ " not found as user or contact"), none⟩

/-- Embeds the `for participant_email in split.participants` loop of
`confirm_split` (lines 514-548): per participant either record an error entry
and continue, or insert a fresh debt record and record a success entry. -/
def splitLoop (users : List User) (contacts : List Contact)
    (sender_email sname : String) (app : ℚ) (items : List String) (now : Nat) :
    List String → List UserDebt → Nat → List UserDebt × List SplitResultEntry × Nat
  | [], s, nid => (s, [], nid)
  | p :: ps, s, nid =>
    if resolvable users contacts p then
      let d := mkSplitDebt sender_email sname p app items now nid
      let rest := splitLoop users contacts sender_email sname app items now ps (s ++ [d]) (nid + 1)
      (rest.1, ⟨p, "success", none, some app⟩ :: rest.2.1, rest.2.2)
    else
      let rest := splitLoop users contacts sender_email sname app items now ps s nid
      (rest.1,
       ⟨p, "error",
         some ("Participant with email " ++ p ++ " not found as user or contact"),
         none⟩ :: rest.2.1,
       rest.2.2)

/-- Embeds `confirm_split` (src/contact_backend.py lines 487-558).  Validation
errors precede every insert, so the collection is unchanged on error paths;
otherwise the loop inserts one fresh record per resolved participant and the
handler returns HTTP 200 with status `success` and the mixed results array. -/
def confirm_split (participants : List String) (amount_per_person : ℚ)
    (items : Option (List String)) (sender_email : String)
    (sender_name : Option String) (users : List User) (contacts : List Contact)
    (s : List UserDebt) (now nextId : Nat) :
    List UserDebt × Except HTTPError SplitResponse :=
  if participants.isEmpty then
    (s, .error ⟨400, "At least one participant is required"⟩)
  else if amount_per_person ≤ 0 then
    (s, .error ⟨400, "Amount per person must be greater than 0"⟩)
  else if sender_email = "" then
    (s, .error ⟨400, "Sender email is required"⟩)
  else
    let sender_user := users.find? (fun x => x.email == sender_email)
    let sname := resolveSenderName sender_name sender_user
    let out := splitLoop users contacts sender_email sname amount_per_person
      (items.getD []) now participants s nextId
    (out.1, .ok ⟨"success", out.2.1⟩)

/-! ## Receipt service: persistence policy of `upload_receipt`
(src/receipt_backend.py lines 176-209) -/

/-- Whether `needle` begins the list `hay` (character lists). -/
def startsWithL : List Char → List Char → Bool
  | _, [] => true
  | [], _ :: _ => false
  | a :: as, b :: bs => a == b && startsWithL as bs

/-- Whether `needle` occurs contiguously inside `hay` (character lists). -/
def containsSubL : List Char → List Char → Bool
  | [], needle => needle.isEmpty
  | a :: t, needle => startsWithL (a :: t) needle || containsSubL t needle

/-- Python's substring test `needle in hay` on strings. -/
def strContainsSub (hay needle : String) : Bool :=
  containsSubL hay.data needle.data

/-- The receipt structure parsed from the model output, before the database
write; the generated record id is attached separately on success. -/
structure ParsedReceipt where
  items : List String
  total : ℚ
deriving DecidableEq, Repr

/-- Embeds the `try/except` around the MongoDB insert in `upload_receipt`
(lines 176-209).  `dbResult` is the outcome of `insert_one`: `Except.ok` with
the generated id, or `Except.error` with the exception text.  On a database
failure whose text contains neither "SSL" nor "handshake" the handler
re-raises as HTTP 500; otherwise it swallows the failure and returns the
parsed but unpersisted data with no `receipt_id`. -/
def upload_persist (data : ParsedReceipt) (dbResult : Except String String) :
    Except HTTPError (ParsedReceipt × Option String) :=
  match dbResult with
  | .ok rid => .ok (data, some rid)
  | .error msg =>
    if !(strContainsSub msg "SSL") && !(strContainsSub msg "handshake") then
      .error ⟨500, "Failed to save receipt to database: " ++ msg⟩
    else
      .ok (data, none)



/-! ## Concrete states used by counterexamples and witnesses -/

/-- Older of the two demo records of the spec's allocation example: amount 5,
nothing paid back, `created_at` 10. -/
def demoOlder : UserDebt := ⟨1, "alice@x", "Alice A", "bob@x", 5, 0, [], 10⟩

/-- Newer demo record: amount 5, nothing paid back, `created_at` 20. -/
def demoNewer : UserDebt := ⟨2, "alice@x", "Alice A", "bob@x", 5, 0, [], 20⟩

/-- The `user_debts` collection of the spec's allocation example: two fully
outstanding records of 5 between the same (creditor, debtor) pair. -/
def demoPayState : List UserDebt := [demoOlder, demoNewer]

/-- A stored contact used by the categorization counterexample. -/
def demoContactC : Contact := ⟨7, "Charlie", "C", "charlie", "charlie@x", "w3"⟩

/-- A fully repaid debt of the viewer-as-creditor direction: charlie owed the
viewer 5 and has paid all 5 back. -/
def demoDebtA : UserDebt := ⟨1, "u@x", "U User", "charlie@x", 5, 5, [], 10⟩

/-- An outstanding debt of the viewer-as-debtor direction: the viewer owes
charlie 10. -/
def demoDebtB : UserDebt := ⟨2, "charlie@x", "Charlie C", "u@x", 10, 0, [], 11⟩

/-- A single outstanding record of 5 used by payment-error witnesses. -/
def demoSingleDebt : UserDebt := ⟨1, "a@x", "A A", "b@x", 5, 0, [], 10⟩

/-- A registered user whose stored hash matches password "pw" under the demo
hash function prepending "H-". -/
def demoUser : User := ⟨1, "a@x", "a", "H-pw", "w1", "A", "A"⟩

/-- Helper: the outstanding remainder of the first `k` records of a list. -/
def remBefore (ds : List UserDebt) (k : Nat) : ℚ :=
  ((ds.take k).map (fun d => d.amount - d.paid_back)).sum

/-- The per-record invariant of the spec: `0 ≤ paid_back ≤ amount`. -/
def DebtInv (d : UserDebt) : Prop := 0 ≤ d.paid_back ∧ d.paid_back ≤ d.amount

/-! ## Lemmas about payment allocation -/

theorem remBefore_zero (ds : List UserDebt) : remBefore ds 0 = 0 := by
  simp [remBefore]

theorem remBefore_succ_cons (d : UserDebt) (ds : List UserDebt) (k : Nat) :
    remBefore (d :: ds) (k + 1) = (d.amount - d.paid_back) + remBefore ds k := by
  simp [remBefore, List.take_succ_cons]

theorem remBefore_nonneg (ds : List UserDebt) (k : Nat)
    (hinv : ∀ d ∈ ds, 0 ≤ d.amount - d.paid_back) : 0 ≤ remBefore ds k := by
  apply List.sum_nonneg
  intro x hx
  obtain ⟨d, hd, rfl⟩ := List.mem_map.mp hx
  exact hinv d (List.take_subset k ds hd)

theorem map_getElem?_congr {α β : Type} (l : List α) (f g : α → β)
    (h : ∀ d ∈ l, f d = g d) (k : Nat) : (l[k]?).map f = (l[k]?).map g := by
  cases hk : l[k]? with
  | none => rfl
  | some e =>
    obtain ⟨hlt, rfl⟩ := List.getElem?_eq_some_iff.mp hk
    simp [h _ (List.getElem_mem hlt)]

theorem allocStep_zero (ds : List UserDebt) : allocStep 0 ds = ds := by
  cases ds with
  | nil => rfl
  | cons d ds => simp [allocStep]

theorem allocStep_paid (p : ℚ) (ds : List UserDebt) (hp : 0 ≤ p)
    (hinv : ∀ d ∈ ds, 0 ≤ d.amount - d.paid_back) (k : Nat) :
    ((allocStep p ds)[k]?).map (fun d => d.paid_back)
      = (ds[k]?).map (fun d => min d.amount (d.paid_back + max 0 (p - remBefore ds k))) := by
  induction ds generalizing p k with
  | nil => simp [allocStep]
  | cons d ds ih =>
    have hd0 : 0 ≤ d.amount - d.paid_back := hinv d (List.mem_cons_self d ds)
    have hinv2 : ∀ x ∈ ds, 0 ≤ x.amount - x.paid_back :=
      fun x hx => hinv x (List.mem_cons_of_mem d hx)
    by_cases hp0 : p ≤ 0
    · have hpz : p = 0 := le_antisymm hp0 hp
      subst hpz
      rw [allocStep_zero]
      apply map_getElem?_congr
      intro e he
      have he0 : 0 ≤ e.amount - e.paid_back := hinv e he
      have hR : 0 ≤ remBefore (d :: ds) k := remBefore_nonneg _ _ hinv
      have hmax : max 0 (0 - remBefore (d :: ds) k) = 0 := by
        apply max_eq_left; linarith
      rw [hmax]
      have : min e.amount (e.paid_back + 0) = e.paid_back := by
        rw [add_zero]; apply min_eq_right; linarith
      rw [this]
    · have hp1 : 0 < p := lt_of_not_ge hp0
      by_cases hrem : 0 < d.amount - d.paid_back
      · have hstep : allocStep p (d :: ds)
            = { d with paid_back := d.paid_back + min p (d.amount - d.paid_back) }
              :: allocStep (p - min p (d.amount - d.paid_back)) ds := by
          simp [allocStep, hp0, hrem]
        rw [hstep]
        cases k with
        | zero =>
          rcases le_total p (d.amount - d.paid_back) with h | h
          · have h1 : min p (d.amount - d.paid_back) = p := min_eq_left h
            have h2 : min d.amount (d.paid_back + p) = d.paid_back + p :=
              min_eq_right (by linarith)
            simp [remBefore_zero, h1, h2, max_eq_right (le_of_lt hp1)]
          · have h1 : min p (d.amount - d.paid_back) = d.amount - d.paid_back :=
              min_eq_right h
            have h2 : min d.amount (d.paid_back + p) = d.amount :=
              min_eq_left (by linarith)
            simp [remBefore_zero, h1, h2, max_eq_right (le_of_lt hp1)]
        | succ k =>
          simp only [List.getElem?_cons_succ]
          have hple : 0 ≤ p - min p (d.amount - d.paid_back) := by
            rcases le_total p (d.amount - d.paid_back) with h | h
            · rw [min_eq_left h]; linarith
            · rw [min_eq_right h]; linarith
          rw [ih _ hple hinv2]
          apply map_getElem?_congr
          intro e he
          have hR : 0 ≤ remBefore ds k := remBefore_nonneg _ _ hinv2
          rw [remBefore_succ_cons]
          have hmaxeq : max 0 (p - min p (d.amount - d.paid_back) - remBefore ds k)
              = max 0 (p - (d.amount - d.paid_back + remBefore ds k)) := by
            rcases le_total p (d.amount - d.paid_back) with h | h
            · rw [min_eq_left h]
              have h1 : max 0 (p - p - remBefore ds k) = 0 := by
                apply max_eq_left; linarith
              have h2 : max 0 (p - (d.amount - d.paid_back + remBefore ds k)) = 0 := by
                apply max_eq_left; linarith
              rw [h1, h2]
            · rw [min_eq_right h]
              ring_nf
          rw [hmaxeq]
      · have hremz : d.amount - d.paid_back = 0 := le_antisymm (not_lt.mp hrem) hd0
        have hstep : allocStep p (d :: ds) = d :: allocStep p ds := by
          simp [allocStep, hp0, hrem]
        rw [hstep]
        cases k with
        | zero =>
          have h2 : min d.amount (d.paid_back + p) = d.paid_back := by
            have hpa : d.amount = d.paid_back := by linarith
            rw [hpa]
            exact min_eq_left (by linarith)
          simp [remBefore_zero, max_eq_right (le_of_lt hp1), h2]
        | succ k =>
          simp only [List.getElem?_cons_succ]
          rw [ih _ hp hinv2]
          apply map_getElem?_congr
          intro e he
          rw [remBefore_succ_cons, hremz, zero_add]

theorem allocStep_sum (p : ℚ) (ds : List UserDebt) (hp : 0 ≤ p)
    (hinv : ∀ d ∈ ds, 0 ≤ d.amount - d.paid_back)
    (hle : p ≤ ((ds.map (fun d => d.amount - d.paid_back)).sum)) :
    ((allocStep p ds).map (fun d => d.paid_back)).sum
      = ((ds.map (fun d => d.paid_back)).sum) + p := by
  induction ds generalizing p with
  | nil =>
    simp only [List.map_nil, List.sum_nil] at hle ⊢
    have : p = 0 := le_antisymm hle hp
    simp [allocStep, this]
  | cons d ds ih =>
    have hd0 : 0 ≤ d.amount - d.paid_back := hinv d (List.mem_cons_self d ds)
    have hinv2 : ∀ x ∈ ds, 0 ≤ x.amount - x.paid_back :=
      fun x hx => hinv x (List.mem_cons_of_mem d hx)
    have hsum2 : 0 ≤ ((ds.map (fun x => x.amount - x.paid_back)).sum) := by
      apply List.sum_nonneg
      intro x hx
      obtain ⟨e, he, rfl⟩ := List.mem_map.mp hx
      exact hinv2 e he
    by_cases hp0 : p ≤ 0
    · have hpz : p = 0 := le_antisymm hp0 hp
      subst hpz
      rw [allocStep_zero, add_zero]
    · have hp1 : 0 < p := lt_of_not_ge hp0
      rw [List.map_cons, List.sum_cons] at hle
      by_cases hrem : 0 < d.amount - d.paid_back
      · have hstep : allocStep p (d :: ds)
            = { d with paid_back := d.paid_back + min p (d.amount - d.paid_back) }
              :: allocStep (p - min p (d.amount - d.paid_back)) ds := by
          simp [allocStep, hp0, hrem]
        rw [hstep]
        simp only [List.map_cons, List.sum_cons]
        have hple : 0 ≤ p - min p (d.amount - d.paid_back) := by
          rcases le_total p (d.amount - d.paid_back) with h | h
          · rw [min_eq_left h]; linarith
          · rw [min_eq_right h]; linarith
        have hle2 : p - min p (d.amount - d.paid_back)
            ≤ ((ds.map (fun x => x.amount - x.paid_back)).sum) := by
          rcases le_total p (d.amount - d.paid_back) with h | h
          · rw [min_eq_left h]; linarith
          · rw [min_eq_right h]; linarith
        rw [ih _ hple hinv2 hle2]
        ring
      · have hremz : d.amount - d.paid_back = 0 := le_antisymm (not_lt.mp hrem) hd0
        have hstep : allocStep p (d :: ds) = d :: allocStep p ds := by
          simp [allocStep, hp0, hrem]
        rw [hstep]
        simp only [List.map_cons, List.sum_cons]
        have hle2 : p ≤ ((ds.map (fun x => x.amount - x.paid_back)).sum) := by linarith
        rw [ih _ hp hinv2 hle2]
        ring


/-! ## Lemmas about the debt invariant and state updates -/

theorem allocStep_mem (p : ℚ) (ds : List UserDebt)
    (hinv : ∀ d ∈ ds, DebtInv d) :
    ∀ u ∈ allocStep p ds, ∃ d ∈ ds, u.mongoId = d.mongoId ∧ u.amount = d.amount ∧
      d.paid_back ≤ u.paid_back ∧ u.paid_back ≤ d.amount := by
  induction ds generalizing p with
  | nil => simp [allocStep]
  | cons d ds ih =>
    have hd : DebtInv d := hinv d (List.mem_cons_self d ds)
    have hinv2 : ∀ x ∈ ds, DebtInv x := fun x hx => hinv x (List.mem_cons_of_mem d hx)
    have hrefl : ∀ u ∈ d :: ds, ∃ x ∈ d :: ds, u.mongoId = x.mongoId ∧ u.amount = x.amount ∧
        x.paid_back ≤ u.paid_back ∧ u.paid_back ≤ x.amount := by
      intro u hu
      exact ⟨u, hu, rfl, rfl, le_refl _, (hinv u hu).2⟩
    by_cases hp0 : p ≤ 0
    · have hstep : allocStep p (d :: ds) = d :: ds := by
        cases ds <;> simp [allocStep, hp0]
      rw [hstep]
      exact hrefl
    · by_cases hrem : 0 < d.amount - d.paid_back
      · have hstep : allocStep p (d :: ds)
            = { d with paid_back := d.paid_back + min p (d.amount - d.paid_back) }
              :: allocStep (p - min p (d.amount - d.paid_back)) ds := by
          simp [allocStep, hp0, hrem]
        rw [hstep]
        intro u hu
        rcases List.mem_cons.mp hu with rfl | hu2
        · refine ⟨d, List.mem_cons_self d ds, rfl, rfl, ?_, ?_⟩
          · have : 0 ≤ min p (d.amount - d.paid_back) :=
              le_min (le_of_lt (lt_of_not_ge hp0)) (le_of_lt hrem)
            simpa using this
          · have : min p (d.amount - d.paid_back) ≤ d.amount - d.paid_back :=
              min_le_right _ _
            simp only []
            linarith
        · obtain ⟨x, hx, h1, h2, h3, h4⟩ := ih _ hinv2 u hu2
          exact ⟨x, List.mem_cons_of_mem d hx, h1, h2, h3, h4⟩
      · have hstep : allocStep p (d :: ds) = d :: allocStep p ds := by
          simp [allocStep, hp0, hrem]
        rw [hstep]
        intro u hu
        rcases List.mem_cons.mp hu with rfl | hu2
        · exact ⟨u, List.mem_cons_self u ds, rfl, rfl, le_refl _, hd.2⟩
        · obtain ⟨x, hx, h1, h2, h3, h4⟩ := ih _ hinv2 u hu2
          exact ⟨x, List.mem_cons_of_mem d hx, h1, h2, h3, h4⟩

theorem applyUpdates_rel (upd s : List UserDebt)
    (hids : (s.map (fun d => d.mongoId)).Nodup)
    (hupd : ∀ u ∈ upd, ∃ d ∈ s, u.mongoId = d.mongoId ∧ u.amount = d.amount ∧
      d.paid_back ≤ u.paid_back ∧ u.paid_back ≤ d.amount)
    (hinv : ∀ d ∈ s, DebtInv d) :
    ∀ d ∈ s, ((upd.find? (fun u => u.mongoId == d.mongoId)).getD d).mongoId = d.mongoId ∧
      ((upd.find? (fun u => u.mongoId == d.mongoId)).getD d).amount = d.amount ∧
      d.paid_back ≤ ((upd.find? (fun u => u.mongoId == d.mongoId)).getD d).paid_back ∧
      ((upd.find? (fun u => u.mongoId == d.mongoId)).getD d).paid_back ≤ d.amount := by
  intro d hd
  cases hfind : upd.find? (fun u => u.mongoId == d.mongoId) with
  | none => exact ⟨rfl, rfl, le_refl _, (hinv d hd).2⟩
  | some u =>
    have hu : u ∈ upd := List.mem_of_find?_eq_some hfind
    have hid : u.mongoId = d.mongoId := by
      have := List.find?_some hfind
      exact beq_iff_eq.mp this
    obtain ⟨d0, hd0, h1, h2, h3, h4⟩ := hupd u hu
    have : d0 = d := List.inj_on_of_nodup_map hids hd0 hd (by rw [← h1, hid])
    subst this
    simp only [Option.getD_some]
    exact ⟨hid, h2, h3, h4⟩

theorem record_payment_rel (de ce : String) (amt : ℚ) (s : List UserDebt)
    (hinv : ∀ d ∈ s, DebtInv d) (hids : (s.map (fun d => d.mongoId)).Nodup) :
    List.Forall₂ (fun old new => new.mongoId = old.mongoId ∧ new.amount = old.amount ∧
        old.paid_back ≤ new.paid_back ∧ new.paid_back ≤ old.amount)
      s (record_payment de ce amt s).1 := by
  unfold record_payment
  by_cases h1 : de = ""
  · simp [h1]
    exact fun x hx => (hinv x hx).2
  · by_cases h2 : ce = ""
    · simp [h1, h2]
      exact fun x hx => (hinv x hx).2
    · by_cases h3 : (s.filter (debtKeyed de ce)).isEmpty
      · simp [h1, h2, h3]
        exact fun x hx => (hinv x hx).2
      · by_cases h4 : ((s.filter (debtKeyed de ce)).map (fun d => d.amount)).sum
            - ((s.filter (debtKeyed de ce)).map (fun d => d.paid_back)).sum < amt
        · simp [h1, h2, h3, h4]
          exact fun x hx => (hinv x hx).2
        · have hmain : ∀ u ∈ allocStep amt (sortByCreated (s.filter (debtKeyed de ce))),
              ∃ d ∈ s, u.mongoId = d.mongoId ∧ u.amount = d.amount ∧
                d.paid_back ≤ u.paid_back ∧ u.paid_back ≤ d.amount := by
            have hfsub : ∀ x ∈ sortByCreated (s.filter (debtKeyed de ce)), DebtInv x := by
              intro x hx
              have hx2 : x ∈ s.filter (debtKeyed de ce) :=
                (List.perm_insertionSort byCreated _).subset hx
              exact hinv x (List.mem_of_mem_filter hx2)
            intro u hu
            obtain ⟨d0, hd0, hrest⟩ := allocStep_mem amt _ hfsub u hu
            have hd0s : d0 ∈ s := by
              have : d0 ∈ s.filter (debtKeyed de ce) :=
                (List.perm_insertionSort byCreated _).subset hd0
              exact List.mem_of_mem_filter this
            exact ⟨d0, hd0s, hrest⟩
          simp [h1, h2, h3, h4, applyUpdates]
          exact applyUpdates_rel _ s hids hmain hinv

/-! ## Lemmas about confirm_split -/

theorem splitLoop_eq (users : List User) (contacts : List Contact)
    (se sname : String) (app : ℚ) (items : List String) (now : Nat) :
    ∀ (ps : List String) (s : List UserDebt) (nid : Nat),
      splitLoop users contacts se sname app items now ps s nid
        = (s ++ mkRecords se sname app items now
              (ps.filter (fun p => resolvable users contacts p)) nid,
           ps.map (splitEntry users contacts app),
           nid + (ps.filter (fun p => resolvable users contacts p)).length) := by
  intro ps
  induction ps with
  | nil => intro s nid; simp [splitLoop, mkRecords]
  | cons p ps ih =>
    intro s nid
    by_cases hres : resolvable users contacts p
    · simp only [splitLoop, hres, if_true, ih, List.filter_cons, List.map_cons]
      simp [mkRecords, splitEntry, hres, mkSplitDebt]
      omega
    · simp only [splitLoop, hres, if_false, ih, List.filter_cons, List.map_cons]
      simp [splitEntry, hres]

theorem mkRecords_map_debtor (se sname : String) (app : ℚ) (items : List String)
    (now : Nat) : ∀ (ps : List String) (nid : Nat),
    (mkRecords se sname app items now ps nid).map (fun d => d.debtor_email) = ps := by
  intro ps
  induction ps with
  | nil => intro nid; simp [mkRecords]
  | cons p ps ih => intro nid; simp [mkRecords, mkSplitDebt, ih]

theorem mkRecords_mem (se sname : String) (app : ℚ) (items : List String)
    (now : Nat) : ∀ (ps : List String) (nid : Nat),
    ∀ d ∈ mkRecords se sname app items now ps nid,
      d.amount = app ∧ d.paid_back = 0 ∧ d.creditor_email = se ∧
      d.creditor_name = sname ∧ d.items = items ∧ d.created_at = now := by
  intro ps
  induction ps with
  | nil => intro nid; simp [mkRecords]
  | cons p ps ih =>
    intro nid d hd
    rcases List.mem_cons.mp hd with rfl | hd2
    · exact ⟨rfl, rfl, rfl, rfl, rfl, rfl⟩
    · exact ih (nid + 1) d hd2

/-! ## Lemmas about contact categorization -/

theorem owesMem_iff (u e : String) (ds : List UserDebt) (he : e ≠ "") :
    owesMem u e ds = true ↔ ∃ d ∈ ds, d.creditor_email = u ∧ d.debtor_email = e := by
  simp [owesMem, pOwes, List.any_eq_true, he, and_assoc]

theorem ioweMem_iff (u e : String) (ds : List UserDebt) (he : e ≠ "") :
    ioweMem u e ds = true ↔ ∃ d ∈ ds, d.debtor_email = u ∧ d.creditor_email = e := by
  simp [ioweMem, pIOwe, List.any_eq_true, he, and_assoc]

theorem baseEntry_category_cases (u : String) (ds : List UserDebt) (c : Contact) :
    (baseEntry u ds c).category = "owes_me" ∨ (baseEntry u ds c).category = "i_owe" ∨
      (baseEntry u ds c).category = "neutral" := by
  by_cases h1 : owesMem u c.email ds <;>
    by_cases h2 : 0 < owesTotal u c.email ds - owesPaid u c.email ds <;>
    by_cases h3 : ioweMem u c.email ds <;>
    by_cases h4 : 0 < ioweTotal u c.email ds - iowePaid u c.email ds <;>
    simp [baseEntry, h1, h2, h3, h4]

theorem addOwesSynth_shape (u : String) (ds : List UserDebt) (users : List User)
    (acc : List ContactEntry) (e : String) :
    addOwesSynth u ds users acc e = acc ∨
      ∃ x : ContactEntry, x.category = "owes_me" ∧
        addOwesSynth u ds users acc e = acc ++ [x] := by
  simp only [addOwesSynth]
  split
  · exact Or.inl rfl
  · split
    · exact Or.inl rfl
    · split
      · exact Or.inl rfl
      · split
        · exact Or.inr ⟨_, rfl, rfl⟩
        · exact Or.inl rfl

theorem addIoweSynth_shape (u : String) (ds : List UserDebt) (users : List User)
    (acc : List ContactEntry) (e : String) :
    addIoweSynth u ds users acc e = acc ∨
      ∃ x : ContactEntry, x.category = "i_owe" ∧
        addIoweSynth u ds users acc e = acc ++ [x] := by
  simp only [addIoweSynth]
  split
  · exact Or.inl rfl
  · split
    · exact Or.inl rfl
    · split
      · exact Or.inl rfl
      · split
        · exact Or.inr ⟨_, rfl, rfl⟩
        · exact Or.inl rfl

theorem foldl_addOwesSynth_mem (u : String) (ds : List UserDebt) (users : List User) :
    ∀ (keys : List String) (acc : List ContactEntry),
      ∀ entry ∈ keys.foldl (addOwesSynth u ds users) acc,
        entry ∈ acc ∨ entry.category = "owes_me" := by
  intro keys
  induction keys with
  | nil => intro acc entry h; exact Or.inl h
  | cons k ks ih =>
    intro acc entry h
    simp only [List.foldl_cons] at h
    rcases ih _ entry h with h2 | h2
    · rcases addOwesSynth_shape u ds users acc k with hs | ⟨x, hx, hs⟩
      · rw [hs] at h2; exact Or.inl h2
      · rw [hs] at h2
        rcases List.mem_append.mp h2 with h3 | h3
        · exact Or.inl h3
        · right
          rcases List.mem_singleton.mp h3 with rfl
          exact hx
    · exact Or.inr h2

theorem foldl_addIoweSynth_mem (u : String) (ds : List UserDebt) (users : List User) :
    ∀ (keys : List String) (acc : List ContactEntry),
      ∀ entry ∈ keys.foldl (addIoweSynth u ds users) acc,
        entry ∈ acc ∨ entry.category = "i_owe" := by
  intro keys
  induction keys with
  | nil => intro acc entry h; exact Or.inl h
  | cons k ks ih =>
    intro acc entry h
    simp only [List.foldl_cons] at h
    rcases ih _ entry h with h2 | h2
    · rcases addIoweSynth_shape u ds users acc k with hs | ⟨x, hx, hs⟩
      · rw [hs] at h2; exact Or.inl h2
      · rw [hs] at h2
        rcases List.mem_append.mp h2 with h3 | h3
        · exact Or.inl h3
        · right
          rcases List.mem_singleton.mp h3 with rfl
          exact hx
    · exact Or.inr h2


theorem forall2_mem_right {α β : Type} {R : α → β → Prop} {l1 : List α}
    {l2 : List β} (h : List.Forall₂ R l1 l2) :
    ∀ b ∈ l2, ∃ a ∈ l1, R a b := by
  induction h with
  | nil => simp
  | @cons a b as bs hR _ ih =>
    intro x hx
    rcases List.mem_cons.mp hx with rfl | hx2
    · exact ⟨a, List.mem_cons_self a as, hR⟩
    · obtain ⟨y, hy, hr⟩ := ih x hx2
      exact ⟨y, List.mem_cons_of_mem a hy, hr⟩

/-! ## Claim theorems -/

/-- C3: for an individualized RecordPayment over a pair with at least one
UserDebt record, a payment exceeding the aggregate remaining debt
(Σ amount − Σ paid_back over the matching records) fails with InvalidArgument
(HTTP 400) and leaves every UserDebt record unchanged. -/
theorem c3_overpayment_rejected (de ce : String) (amt : ℚ) (s : List UserDebt)
    (hde : de ≠ "") (hce : ce ≠ "")
    (hne : s.filter (debtKeyed de ce) ≠ [])
    (hover : ((s.filter (debtKeyed de ce)).map (fun d => d.amount)).sum
        - ((s.filter (debtKeyed de ce)).map (fun d => d.paid_back)).sum < amt) :
    record_payment de ce amt s
      = (s, .error ⟨400, "Payment amount exceeds remaining debt"⟩) := by
  have h3 : ¬ ((s.filter (debtKeyed de ce)).isEmpty = true) := by
    rw [List.isEmpty_iff]
    exact hne
  unfold record_payment
  simp [hde, hce, h3, hover]

/-- Witness for C3: a payment of 6 against a single outstanding record of 5 is
rejected with HTTP 400 and the collection is unchanged. -/
theorem c3_overpayment_rejected_witness :
    record_payment "b@x" "a@x" 6 [demoSingleDebt]
      = ([demoSingleDebt], .error ⟨400, "Payment amount exceeds remaining debt"⟩) :=
  c3_overpayment_rejected "b@x" "a@x" 6 [demoSingleDebt]
    (by decide) (by decide) (by decide)
    (by norm_num +decide [demoSingleDebt, debtKeyed, List.filter])

/-- C10 (implicit): for the individualized RecordPayment, when no UserDebt
record exists for the (debtor, creditor) pair the operation fails with
NotFound (HTTP 404), not InvalidArgument; the conclusion holds for every
payment amount, so the existence check decides the outcome before the amount
is compared against remaining debt, and the state is unchanged. -/
theorem c10_no_records_not_found (de ce : String) (s : List UserDebt)
    (hde : de ≠ "") (hce : ce ≠ "")
    (hempty : s.filter (debtKeyed de ce) = []) :
    ∀ amt : ℚ, record_payment de ce amt s
      = (s, .error ⟨404, "No debt records found where " ++ de ++ " owes " ++ ce⟩) := by
  intro amt
  unfold record_payment
  simp [hde, hce, hempty]

/-- Witness for C10: with no record between the pair, even an amount that also
exceeds the (zero) remaining debt yields 404, not 400. -/
theorem c10_no_records_not_found_witness :
    record_payment "zz@x" "a@x" 100 [demoSingleDebt]
      = ([demoSingleDebt],
         .error ⟨404, "No debt records found where zz@x owes a@x"⟩) :=
  c10_no_records_not_found "zz@x" "a@x" [demoSingleDebt]
    (by decide) (by decide) (by decide) 100

/-- C7: Login succeeds iff a user with the given email exists whose stored
hash equals the hash of the supplied password; every failure, whether the
email or the password is wrong, produces the identical 401 error value. -/
theorem c7_login_iff (users : List User) (hash : String → String)
    (email password : String)
    (hnodup : (users.map (fun u => u.email)).Nodup) :
    ((∃ r, login_user users hash email password = .ok r) ↔
      ∃ u ∈ users, u.email = email ∧ u.password = hash password) ∧
    (∀ e, login_user users hash email password = .error e →
      e = ⟨401, "Invalid email or password"⟩) := by
  constructor
  · constructor
    · rintro ⟨r, hr⟩
      unfold login_user at hr
      cases hfind : users.find? (fun u => u.email == email) with
      | none =>
        simp only [hfind] at hr
        cases hr
      | some u =>
        simp only [hfind] at hr
        have he0 : (u.email == email) = true := by
          simpa using List.find?_some hfind
        by_cases hpw : (u.password == hash password) = true
        · exact ⟨u, List.mem_of_find?_eq_some hfind,
            beq_iff_eq.mp he0, beq_iff_eq.mp hpw⟩
        · rw [if_neg hpw] at hr; cases hr
    · rintro ⟨u, hu, he, hpw⟩
      cases hfind : users.find? (fun x => x.email == email) with
      | none =>
        exfalso
        have := List.find?_eq_none.mp hfind u hu
        simp [he] at this
      | some u0 =>
        have hu0 : u0 ∈ users := List.mem_of_find?_eq_some hfind
        have he0 : u0.email = email := by
          have := List.find?_some hfind
          simpa using this
        have heq : u0 = u := List.inj_on_of_nodup_map hnodup hu0 hu (by rw [he0, he])
        have hpw0 : u0.password = hash password := by rw [heq]; exact hpw
        refine ⟨⟨u0.mongoId, u0.email, u0.username, u0.wallet_address,
          u0.first_name, u0.last_name⟩, ?_⟩
        unfold login_user
        simp only [hfind]
        rw [if_pos (beq_iff_eq.mpr hpw0)]
  · intro e he
    unfold login_user at he
    cases hfind : users.find? (fun u => u.email == email) with
    | none =>
      simp only [hfind] at he
      cases he
      rfl
    | some u =>
      simp only [hfind] at he
      by_cases hpw : (u.password == hash password) = true
      · rw [if_pos hpw] at he; cases he
      · rw [if_neg hpw] at he; cases he; rfl

/-- Witness for C7: with one registered user, login with the right hash
succeeds and any mismatch yields the fixed 401 error. -/
theorem c7_login_iff_witness :
    ((∃ r, login_user [demoUser]
        (fun pw => "H-" ++ pw) "a@x" "pw" = .ok r) ↔
      ∃ u ∈ [demoUser],
        u.email = "a@x" ∧ u.password = (fun pw : String => "H-" ++ pw) "pw") ∧
    (∀ e, login_user [demoUser]
        (fun pw => "H-" ++ pw) "a@x" "pw" = .error e →
      e = ⟨401, "Invalid email or password"⟩) :=
  c7_login_iff [demoUser]
    (fun pw => "H-" ++ pw) "a@x" "pw" (by decide)

/-- C8: registration fails with Conflict (HTTP 400) whenever a user with the
same email, username, or wallet address exists, leaving the collection
unchanged; on success it stores the password only as its hash and returns
the public fields (the response structure carries no hash); registering the
same data twice succeeds the first time and fails the second. -/
theorem c8_register_conflict (users : List User) (hash : String → String)
    (r : UserRegister) (nextId nextId2 : Nat) :
    ((∃ u ∈ users, u.email = r.email ∨ u.username = r.username ∨
        u.wallet_address = r.wallet_address) →
      (register_user users hash r nextId).1 = users ∧
      ∃ e, (register_user users hash r nextId).2 = .error e ∧ e.status = 400) ∧
    ((¬ ∃ u ∈ users, u.email = r.email ∨ u.username = r.username ∨
        u.wallet_address = r.wallet_address) →
      register_user users hash r nextId
        = (users ++ [⟨nextId, r.email, r.username, hash r.password,
            r.wallet_address, r.first_name, r.last_name⟩],
           .ok ⟨nextId, r.email, r.username, r.wallet_address,
            r.first_name, r.last_name⟩)) ∧
    ((¬ ∃ u ∈ users, u.email = r.email ∨ u.username = r.username ∨
        u.wallet_address = r.wallet_address) →
      (register_user (register_user users hash r nextId).1 hash r nextId2).1
          = (register_user users hash r nextId).1 ∧
      (register_user (register_user users hash r nextId).1 hash r nextId2).2
          = .error ⟨400, "Email already registered"⟩) := by
  refine ⟨?_, ?_, ?_⟩
  · intro hdup
    by_cases h1 : users.any (fun u => u.email == r.email)
    · simp [register_user, h1]
    · by_cases h2 : users.any (fun u => u.username == r.username)
      · simp [register_user, h1, h2]
      · by_cases h3 : users.any (fun u => u.wallet_address == r.wallet_address)
        · simp [register_user, h1, h2, h3]
        · exfalso
          obtain ⟨u, hu, hcase⟩ := hdup
          rcases hcase with h | h | h
          · exact h1 (List.any_eq_true.mpr ⟨u, hu, beq_iff_eq.mpr h⟩)
          · exact h2 (List.any_eq_true.mpr ⟨u, hu, beq_iff_eq.mpr h⟩)
          · exact h3 (List.any_eq_true.mpr ⟨u, hu, beq_iff_eq.mpr h⟩)
  · intro hfresh
    have h1 : ¬ (users.any (fun u => u.email == r.email) = true) := by
      intro h
      obtain ⟨u, hu, hb⟩ := List.any_eq_true.mp h
      exact hfresh ⟨u, hu, Or.inl (beq_iff_eq.mp hb)⟩
    have h2 : ¬ (users.any (fun u => u.username == r.username) = true) := by
      intro h
      obtain ⟨u, hu, hb⟩ := List.any_eq_true.mp h
      exact hfresh ⟨u, hu, Or.inr (Or.inl (beq_iff_eq.mp hb))⟩
    have h3 : ¬ (users.any (fun u => u.wallet_address == r.wallet_address) = true) := by
      intro h
      obtain ⟨u, hu, hb⟩ := List.any_eq_true.mp h
      exact hfresh ⟨u, hu, Or.inr (Or.inr (beq_iff_eq.mp hb))⟩
    simp [register_user, h1, h2, h3]
  · intro hfresh
    have h1 : ¬ (users.any (fun u => u.email == r.email) = true) := by
      intro h
      obtain ⟨u, hu, hb⟩ := List.any_eq_true.mp h
      exact hfresh ⟨u, hu, Or.inl (beq_iff_eq.mp hb)⟩
    have h2 : ¬ (users.any (fun u => u.username == r.username) = true) := by
      intro h
      obtain ⟨u, hu, hb⟩ := List.any_eq_true.mp h
      exact hfresh ⟨u, hu, Or.inr (Or.inl (beq_iff_eq.mp hb))⟩
    have h3 : ¬ (users.any (fun u => u.wallet_address == r.wallet_address) = true) := by
      intro h
      obtain ⟨u, hu, hb⟩ := List.any_eq_true.mp h
      exact hfresh ⟨u, hu, Or.inr (Or.inr (beq_iff_eq.mp hb))⟩
    have hstate : (register_user users hash r nextId).1
        = users ++ [⟨nextId, r.email, r.username, hash r.password,
            r.wallet_address, r.first_name, r.last_name⟩] := by
      simp [register_user, h1, h2, h3]
    have hdup2 : ((users ++ [(⟨nextId, r.email, r.username, hash r.password,
        r.wallet_address, r.first_name, r.last_name⟩ : User)]).any
          (fun u => u.email == r.email)) = true := by
      apply List.any_eq_true.mpr
      exact ⟨_, List.mem_append_right users (List.mem_singleton.mpr rfl), beq_iff_eq.mpr rfl⟩
    rw [hstate]
    constructor
    · simp [register_user, hdup2]
    · simp [register_user, hdup2]

/-- Witness for C8: on an empty collection the registration succeeds, stores
the hash, and an identical second registration fails with Conflict. -/
theorem c8_register_conflict_witness :
    register_user [] (fun pw => "H-" ++ pw) ⟨"a@x", "a", "pw", "w1", "A", "B"⟩ 1
        = ([⟨1, "a@x", "a", "H-pw", "w1", "A", "B"⟩],
           .ok ⟨1, "a@x", "a", "w1", "A", "B"⟩) ∧
    (register_user (register_user [] (fun pw => "H-" ++ pw)
        ⟨"a@x", "a", "pw", "w1", "A", "B"⟩ 1).1 (fun pw => "H-" ++ pw)
        ⟨"a@x", "a", "pw", "w1", "A", "B"⟩ 2).2
      = .error ⟨400, "Email already registered"⟩ :=
  ⟨by
    have h := (c8_register_conflict [] (fun pw => "H-" ++ pw)
      ⟨"a@x", "a", "pw", "w1", "A", "B"⟩ 1 2).2.1 (by simp)
    simpa using h,
   ((c8_register_conflict [] (fun pw => "H-" ++ pw)
      ⟨"a@x", "a", "pw", "w1", "A", "B"⟩ 1 2).2.2 (by simp)).2⟩

/-- C9: a database failure while persisting a parsed receipt is escalated as
an HTTP 500 failure, unless the failure text contains the transport-layer
signature "SSL" or "handshake", in which case it is swallowed and the parsed
but unpersisted receipt is returned with no generated record id; a successful
insert returns the data together with the generated id. -/
theorem c9_persistence_policy (data : ParsedReceipt) (msg rid : String) :
    (upload_persist data (.ok rid) = .ok (data, some rid)) ∧
    (strContainsSub msg "SSL" = false → strContainsSub msg "handshake" = false →
      upload_persist data (.error msg)
        = .error ⟨500, "Failed to save receipt to database: " ++ msg⟩) ∧
    (strContainsSub msg "SSL" = true ∨ strContainsSub msg "handshake" = true →
      upload_persist data (.error msg) = .ok (data, none)) := by
  refine ⟨rfl, ?_, ?_⟩
  · intro h1 h2
    simp [upload_persist, h1, h2]
  · intro h
    rcases h with h | h <;> simp [upload_persist, h]

/-- Witness for C9: a TLS-handshake failure message is swallowed and the
unpersisted data returned; an unrelated failure message is escalated as 500. -/
theorem c9_persistence_policy_witness :
    (upload_persist ⟨["x"], 3⟩ (.error "TLS handshake failed") = .ok (⟨["x"], 3⟩, none)) ∧
    (upload_persist ⟨["x"], 3⟩ (.error "duplicate key error")
      = .error ⟨500, "Failed to save receipt to database: duplicate key error"⟩) :=
  ⟨(c9_persistence_policy ⟨["x"], 3⟩ "TLS handshake failed" "id").2.2
      (Or.inr (by decide)),
   (c9_persistence_policy ⟨["x"], 3⟩ "duplicate key error" "id").2.1
      (by decide) (by decide)⟩


/-- C2 counterexample: the claim's concrete instance is arithmetically wrong.
With two fully outstanding records of 5 and a payment of 7, the code pays the
older record in full (0 outstanding) and pays 2 into the newer record, which
therefore has 3 outstanding, not the claimed 2. -/
theorem c2_counterexample :
    (record_payment "bob@x" "alice@x" 7 demoPayState).1.map
        (fun d => d.amount - d.paid_back) = [0, 3] ∧
    (record_payment "bob@x" "alice@x" 7 demoPayState).1.map
        (fun d => d.paid_back) = [5, 2] ∧
    ((3 : ℚ) ≠ 2) := by
  refine ⟨?_, ?_, by norm_num⟩ <;>
    norm_num +decide [record_payment, demoPayState, demoOlder, demoNewer, debtKeyed,
      sortByCreated, List.insertionSort, List.orderedInsert, byCreated,
      allocStep, applyUpdates, List.filter, List.find?_cons_of_pos,
      List.find?_cons_of_neg, Option.getD_some, Option.getD_none]

/-- C2 (amended): the allocation loop walks the records in ascending
`created_at` order (the sort used by `record_payment` is sorted and a
permutation of its input), fully paying each record's remainder before
touching the next: the k-th record's new `paid_back` is
`min amount (paid_back + max 0 (payment − remainder of the earlier records))`,
and a payment not exceeding the total remainder is exhausted exactly
(the total paid_back grows by the payment).  In particular, with two fully
outstanding records of 5 (older) and 5 (newer), a payment of 7 leaves the
older record with 0 outstanding and the newer with 3 outstanding
(paid_back 5 and 2). -/
theorem c2_allocation_oldest_first (p : ℚ) (ds : List UserDebt) (hp : 0 ≤ p)
    (hinv : ∀ d ∈ ds, 0 ≤ d.amount - d.paid_back) :
    (∀ k : Nat, ((allocStep p ds)[k]?).map (fun d => d.paid_back)
        = (ds[k]?).map (fun d =>
            min d.amount (d.paid_back + max 0 (p - remBefore ds k)))) ∧
    (p ≤ ((ds.map (fun d => d.amount - d.paid_back)).sum) →
      ((allocStep p ds).map (fun d => d.paid_back)).sum
        = ((ds.map (fun d => d.paid_back)).sum) + p) ∧
    (∀ l : List UserDebt, List.Sorted byCreated (sortByCreated l) ∧
      List.Perm (sortByCreated l) l) ∧
    (record_payment "bob@x" "alice@x" 7 demoPayState).1.map
        (fun d => d.amount - d.paid_back) = [0, 3] := by
  refine ⟨allocStep_paid p ds hp hinv, allocStep_sum p ds hp hinv, ?_, ?_⟩
  · intro l
    exact ⟨List.sorted_insertionSort byCreated l, List.perm_insertionSort byCreated l⟩
  · norm_num +decide [record_payment, demoPayState, demoOlder, demoNewer, debtKeyed,
      sortByCreated, List.insertionSort, List.orderedInsert, byCreated,
      allocStep, applyUpdates, List.filter, List.find?_cons_of_pos,
      List.find?_cons_of_neg, Option.getD_some, Option.getD_none]

/-- Witness for C2 (amended), instantiated at the spec's own example: payment
7 over the two records of 5. -/
theorem c2_allocation_oldest_first_witness :
    (∀ k : Nat, ((allocStep 7 demoPayState)[k]?).map (fun d => d.paid_back)
        = (demoPayState[k]?).map (fun d =>
            min d.amount (d.paid_back + max 0 (7 - remBefore demoPayState k)))) ∧
    ((allocStep 7 demoPayState).map (fun d => d.paid_back)).sum
        = ((demoPayState.map (fun d => d.paid_back)).sum) + 7 :=
  ⟨(c2_allocation_oldest_first 7 demoPayState (by norm_num)
      (by
        intro d hd
        rcases List.mem_cons.mp hd with rfl | hd2
        · norm_num [demoOlder]
        · rcases List.mem_singleton.mp hd2 with rfl
          norm_num [demoNewer])).1,
   (c2_allocation_oldest_first 7 demoPayState (by norm_num)
      (by
        intro d hd
        rcases List.mem_cons.mp hd with rfl | hd2
        · norm_num [demoOlder]
        · rcases List.mem_singleton.mp hd2 with rfl
          norm_num [demoNewer])).2.1
      (by norm_num [demoPayState, demoOlder, demoNewer])⟩

/-- C4: `0 ≤ paid_back ≤ amount` is preserved by every operation on the
`user_debts` collection.  RecordPayment relates old and new collections
record by record: ids and amounts are unchanged and `paid_back` only
increases, capped at the record's amount; hence the invariant is preserved.
ConfirmSplit only appends records, every appended record having
`paid_back = 0` (and positive amount), so the invariant is preserved there
too. -/
theorem c4_paid_back_invariant (de ce : String) (amt : ℚ)
    (participants : List String) (app : ℚ) (itemsOpt : Option (List String))
    (se : String) (sn : Option String) (users : List User)
    (contacts : List Contact) (s : List UserDebt) (now nextId : Nat)
    (hinv : ∀ d ∈ s, DebtInv d) (hids : (s.map (fun d => d.mongoId)).Nodup) :
    List.Forall₂ (fun old new => new.mongoId = old.mongoId ∧
        new.amount = old.amount ∧ old.paid_back ≤ new.paid_back ∧
        new.paid_back ≤ old.amount)
      s (record_payment de ce amt s).1 ∧
    (∀ d ∈ (record_payment de ce amt s).1, DebtInv d) ∧
    (∀ d ∈ (confirm_split participants app itemsOpt se sn users contacts
        s now nextId).1, DebtInv d) ∧
    (∀ d ∈ (confirm_split participants app itemsOpt se sn users contacts
        s now nextId).1, d ∈ s ∨ d.paid_back = 0) := by
  have hf := record_payment_rel de ce amt s hinv hids
  have hsplit : ∀ d ∈ (confirm_split participants app itemsOpt se sn users
      contacts s now nextId).1, (d ∈ s ∨ (d.paid_back = 0 ∧ d.amount = app ∧ 0 < app)) := by
    intro d hd
    unfold confirm_split at hd
    by_cases hA : participants.isEmpty
    · rw [if_pos hA] at hd
      exact Or.inl hd
    · rw [if_neg hA] at hd
      by_cases hB : app ≤ 0
      · rw [if_pos hB] at hd
        exact Or.inl hd
      · rw [if_neg hB] at hd
        by_cases hC : se = ""
        · rw [if_pos hC] at hd
          exact Or.inl hd
        · rw [if_neg hC] at hd
          simp only [splitLoop_eq] at hd
          rcases List.mem_append.mp hd with h | h
          · exact Or.inl h
          · obtain ⟨ha, hpb, _⟩ := mkRecords_mem _ _ _ _ _ _ _ d h
            exact Or.inr ⟨hpb, ha, lt_of_not_ge hB⟩
  refine ⟨hf, ?_, ?_, ?_⟩
  · intro d hd
    obtain ⟨old, hold, h1, h2, h3, h4⟩ := forall2_mem_right hf d hd
    refine ⟨le_trans (hinv old hold).1 h3, ?_⟩
    rw [← h2] at h4
    exact h4
  · intro d hd
    rcases hsplit d hd with h | ⟨hpb, ha, hpos⟩
    · exact hinv d h
    · exact ⟨le_of_eq hpb.symm, by rw [hpb, ha]; exact le_of_lt hpos⟩
  · intro d hd
    rcases hsplit d hd with h | ⟨hpb, _, _⟩
    · exact Or.inl h
    · exact Or.inr hpb

/-- Witness for C4: the invariant facts instantiated on the two-record demo
state, with a payment of 3 and a one-participant split. -/
theorem c4_paid_back_invariant_witness :
    List.Forall₂ (fun old new => new.mongoId = old.mongoId ∧
        new.amount = old.amount ∧ old.paid_back ≤ new.paid_back ∧
        new.paid_back ≤ old.amount)
      demoPayState (record_payment "bob@x" "alice@x" 3 demoPayState).1 ∧
    (∀ d ∈ (record_payment "bob@x" "alice@x" 3 demoPayState).1, DebtInv d) :=
  ⟨(c4_paid_back_invariant "bob@x" "alice@x" 3 ["bob@x"] 2 none "alice@x" none
      [] [] demoPayState 30 3
      (by
        intro d hd
        rcases List.mem_cons.mp hd with rfl | hd2
        · constructor <;> norm_num [demoOlder, DebtInv]
        · rcases List.mem_singleton.mp hd2 with rfl
          constructor <;> norm_num [demoNewer, DebtInv])
      (by decide)).1,
   (c4_paid_back_invariant "bob@x" "alice@x" 3 ["bob@x"] 2 none "alice@x" none
      [] [] demoPayState 30 3
      (by
        intro d hd
        rcases List.mem_cons.mp hd with rfl | hd2
        · constructor <;> norm_num [demoOlder, DebtInv]
        · rcases List.mem_singleton.mp hd2 with rfl
          constructor <;> norm_num [demoNewer, DebtInv])
      (by decide)).2.1⟩

/-- C5: ConfirmSplit fails with InvalidArgument (HTTP 400) on an empty
participant list or a non-positive amount per person; otherwise (with the
required sender email) it leaves every prior UserDebt record unchanged and
appends exactly one fresh record per successfully-resolved participant, each
with amount = amount_per_person, paid_back = 0, creditor = sender and
items = the split item list — never merging with prior records. -/
theorem c5_confirm_split_fresh_records (participants : List String) (app : ℚ)
    (itemList : List String) (sender_email : String) (sender_name : Option String)
    (users : List User) (contacts : List Contact) (s : List UserDebt)
    (now nextId : Nat) :
    (participants = [] →
      confirm_split participants app (some itemList) sender_email sender_name
          users contacts s now nextId
        = (s, .error ⟨400, "At least one participant is required"⟩)) ∧
    (participants ≠ [] → app ≤ 0 →
      confirm_split participants app (some itemList) sender_email sender_name
          users contacts s now nextId
        = (s, .error ⟨400, "Amount per person must be greater than 0"⟩)) ∧
    (participants ≠ [] → 0 < app → sender_email ≠ "" →
      (confirm_split participants app (some itemList) sender_email sender_name
          users contacts s now nextId).1.take s.length = s ∧
      ((confirm_split participants app (some itemList) sender_email sender_name
          users contacts s now nextId).1.drop s.length).map (fun d => d.debtor_email)
        = participants.filter (fun p => resolvable users contacts p) ∧
      (∀ d ∈ (confirm_split participants app (some itemList) sender_email
          sender_name users contacts s now nextId).1.drop s.length,
        d.amount = app ∧ d.paid_back = 0 ∧ d.creditor_email = sender_email ∧
        d.items = itemList ∧ d.created_at = now)) := by
  refine ⟨?_, ?_, ?_⟩
  · intro h
    simp [confirm_split, h]
  · intro h1 h2
    have hA : ¬ (participants.isEmpty = true) := by
      rw [List.isEmpty_iff]
      exact h1
    simp [confirm_split, hA, h2]
  · intro h1 h2 h3
    have hA : ¬ (participants.isEmpty = true) := by
      rw [List.isEmpty_iff]
      exact h1
    have hB : ¬ (app ≤ 0) := not_le.mpr h2
    have hstate : (confirm_split participants app (some itemList) sender_email
        sender_name users contacts s now nextId).1
        = s ++ mkRecords sender_email
            (resolveSenderName sender_name
              (users.find? (fun x => x.email == sender_email)))
            app itemList now
            (participants.filter (fun p => resolvable users contacts p)) nextId := by
      simp [confirm_split, hA, hB, h3, splitLoop_eq]
    refine ⟨?_, ?_, ?_⟩
    · rw [hstate, List.take_left]
    · rw [hstate, List.drop_left, mkRecords_map_debtor]
    · rw [hstate, List.drop_left]
      intro d hd
      obtain ⟨ha, hpb, hce, _, hit, hcr⟩ := mkRecords_mem _ _ _ _ _ _ _ d hd
      exact ⟨ha, hpb, hce, hit, hcr⟩

/-- Witness for C5: a two-participant split (one resolvable as a user, one as
a contact) against the demo state appends exactly two fresh records. -/
theorem c5_confirm_split_fresh_records_witness :
    (confirm_split ["a@x", "charlie@x"] 4 (some ["pizza"]) "alice@x" none
        [demoUser] [demoContactC] demoPayState 30 3).1.take demoPayState.length
      = demoPayState ∧
    ((confirm_split ["a@x", "charlie@x"] 4 (some ["pizza"]) "alice@x" none
        [demoUser] [demoContactC] demoPayState 30 3).1.drop
          demoPayState.length).map (fun d => d.debtor_email)
      = (["a@x", "charlie@x"].filter
          (fun p => resolvable [demoUser] [demoContactC] p)) :=
  ⟨((c5_confirm_split_fresh_records ["a@x", "charlie@x"] 4 ["pizza"] "alice@x"
      none [demoUser] [demoContactC] demoPayState 30 3).2.2
      (by decide) (by norm_num) (by decide)).1,
   ((c5_confirm_split_fresh_records ["a@x", "charlie@x"] 4 ["pizza"] "alice@x"
      none [demoUser] [demoContactC] demoPayState 30 3).2.2
      (by decide) (by norm_num) (by decide)).2.1⟩

/-- C6: for a valid split request, an unresolvable participant is reported as
an individual error entry in the results while every other participant still
gets its record, and the call as a whole returns the success payload: the
response is `ok` with status "success", the results array pairs each
participant with a success entry or an error entry according to
resolvability, and the records appended are exactly those of the resolvable
participants. -/
theorem c6_partial_failure (participants : List String) (app : ℚ)
    (itemsOpt : Option (List String)) (sender_email : String)
    (sender_name : Option String) (users : List User) (contacts : List Contact)
    (s : List UserDebt) (now nextId : Nat)
    (hne : participants ≠ []) (hpos : 0 < app) (hse : sender_email ≠ "") :
    (confirm_split participants app itemsOpt sender_email sender_name users
        contacts s now nextId).2
      = .ok ⟨"success", participants.map (splitEntry users contacts app)⟩ ∧
    List.Forall₂ (fun p r => r.participant_email = p ∧
        (resolvable users contacts p = false → r.status = "error") ∧
        (resolvable users contacts p = true → r.status = "success"))
      participants (participants.map (splitEntry users contacts app)) ∧
    ((confirm_split participants app itemsOpt sender_email sender_name users
        contacts s now nextId).1.drop s.length).map (fun d => d.debtor_email)
      = participants.filter (fun p => resolvable users contacts p) := by
  have hA : ¬ (participants.isEmpty = true) := by
    rw [List.isEmpty_iff]
    exact hne
  have hB : ¬ (app ≤ 0) := not_le.mpr hpos
  refine ⟨?_, ?_, ?_⟩
  · simp [confirm_split, hA, hB, hse, splitLoop_eq]
  · rw [List.forall₂_map_right_iff]
    apply List.forall₂_same.mpr
    intro p hp
    by_cases h : resolvable users contacts p <;> simp [splitEntry, h]
  · have hstate : (confirm_split participants app itemsOpt sender_email
        sender_name users contacts s now nextId).1
        = s ++ mkRecords sender_email
            (resolveSenderName sender_name
              (users.find? (fun x => x.email == sender_email)))
            app (itemsOpt.getD []) now
            (participants.filter (fun p => resolvable users contacts p)) nextId := by
      simp [confirm_split, hA, hB, hse, splitLoop_eq]
    rw [hstate, List.drop_left, mkRecords_map_debtor]

/-- Witness for C6: splitting between a resolvable participant and an unknown
one returns overall success with one success entry, one error entry, and one
created record. -/
theorem c6_partial_failure_witness :
    (confirm_split ["a@x", "nobody@x"] 4 none "alice@x" none [demoUser] []
        demoPayState 30 3).2
      = .ok ⟨"success", ["a@x", "nobody@x"].map (splitEntry [demoUser] [] 4)⟩ ∧
    ((confirm_split ["a@x", "nobody@x"] 4 none "alice@x" none [demoUser] []
        demoPayState 30 3).1.drop demoPayState.length).map (fun d => d.debtor_email)
      = (["a@x", "nobody@x"].filter (fun p => resolvable [demoUser] [] p)) :=
  ⟨(c6_partial_failure ["a@x", "nobody@x"] 4 none "alice@x" none [demoUser] []
      demoPayState 30 3 (by decide) (by norm_num) (by decide)).1,
   (c6_partial_failure ["a@x", "nobody@x"] 4 none "alice@x" none [demoUser] []
      demoPayState 30 3 (by decide) (by norm_num) (by decide)).2.2⟩


/-- C1 counterexample: the categorization is not the claimed else-if over the
two net balances.  For a stored contact that has creditor-direction records
with the viewer that are fully repaid (net 0) and an outstanding debt the
viewer owes them (net 10 > 0), the claim's rule yields `i_owe`, but
`get_contacts` returns `neutral`: the code branches on membership in the
creditor-direction dictionary and never consults the other direction. -/
theorem c1_counterexample :
    (get_contacts "u@x" [demoContactC] [demoDebtA, demoDebtB] []).map
        (fun e => e.category) = ["neutral"] ∧
    owesPaid "u@x" "charlie@x" [demoDebtA, demoDebtB]
      = owesTotal "u@x" "charlie@x" [demoDebtA, demoDebtB] ∧
    iowePaid "u@x" "charlie@x" [demoDebtA, demoDebtB]
      < ioweTotal "u@x" "charlie@x" [demoDebtA, demoDebtB] ∧
    ("neutral" : String) ≠ "i_owe" := by
  refine ⟨?_, ?_, ?_, by decide⟩
  · norm_num +decide [get_contacts, demoContactC, demoDebtA, demoDebtB, baseEntry,
      owesMem, pOwes, pIOwe, ioweMem, owesTotal, owesPaid, ioweTotal, iowePaid,
      firstDedup, firstDedupAux, addOwesSynth, addIoweSynth, List.filter,
      List.find?_cons_of_pos, List.find?_cons_of_neg, List.foldl]
  · norm_num +decide [owesPaid, owesTotal, pOwes, demoDebtA, demoDebtB, List.filter]
  · norm_num +decide [iowePaid, ioweTotal, pIOwe, demoDebtA, demoDebtB,
      List.filter_cons_of_pos, List.filter_cons_of_neg]

/-- C1 (amended): for a stored contact with a nonempty email, the category of
its entry is decided by membership first, nets second: it is `owes_me` iff
some UserDebt record has the viewer as creditor and the contact as debtor and
that direction's paid-back total is less than its amount total; it is `i_owe`
iff no creditor-direction record exists at all, some record has the viewer as
debtor and the contact as creditor, and that direction's paid-back total is
less than its amount total; it is `neutral` in exactly the remaining cases
(in particular, a contact with fully repaid creditor-direction records is
`neutral` even when the viewer still owes them).  The three categories are
mutually exclusive and exhaustive: every entry returned by `get_contacts`
carries exactly one of the three. -/
theorem c1_categorization_amended (u : String) (ds : List UserDebt)
    (c : Contact) (contacts : List Contact) (users : List User)
    (hc : c.email ≠ "") :
    ((baseEntry u ds c).category = "owes_me" ↔
      (∃ d ∈ ds, d.creditor_email = u ∧ d.debtor_email = c.email) ∧
      owesPaid u c.email ds < owesTotal u c.email ds) ∧
    ((baseEntry u ds c).category = "i_owe" ↔
      ¬ (∃ d ∈ ds, d.creditor_email = u ∧ d.debtor_email = c.email) ∧
      (∃ d ∈ ds, d.debtor_email = u ∧ d.creditor_email = c.email) ∧
      iowePaid u c.email ds < ioweTotal u c.email ds) ∧
    ((baseEntry u ds c).category = "neutral" ↔
      (¬ ((∃ d ∈ ds, d.creditor_email = u ∧ d.debtor_email = c.email) ∧
          owesPaid u c.email ds < owesTotal u c.email ds) ∧
       ¬ (¬ (∃ d ∈ ds, d.creditor_email = u ∧ d.debtor_email = c.email) ∧
          (∃ d ∈ ds, d.debtor_email = u ∧ d.creditor_email = c.email) ∧
          iowePaid u c.email ds < ioweTotal u c.email ds))) ∧
    (∀ entry ∈ get_contacts u contacts ds users,
      entry.category = "owes_me" ∨ entry.category = "i_owe" ∨
        entry.category = "neutral") := by
  have hom := owesMem_iff u c.email ds hc
  have him := ioweMem_iff u c.email ds hc
  refine ⟨?_, ?_, ?_, ?_⟩
  · by_cases h1 : owesMem u c.email ds <;>
      by_cases h2 : owesPaid u c.email ds < owesTotal u c.email ds <;>
      by_cases h3 : ioweMem u c.email ds <;>
      by_cases h4 : iowePaid u c.email ds < ioweTotal u c.email ds <;>
      simp [baseEntry, sub_pos, h1, h2, h3, h4, ← hom, ← him]
  · by_cases h1 : owesMem u c.email ds <;>
      by_cases h2 : owesPaid u c.email ds < owesTotal u c.email ds <;>
      by_cases h3 : ioweMem u c.email ds <;>
      by_cases h4 : iowePaid u c.email ds < ioweTotal u c.email ds <;>
      simp [baseEntry, sub_pos, h1, h2, h3, h4, ← hom, ← him]
  · by_cases h1 : owesMem u c.email ds <;>
      by_cases h2 : owesPaid u c.email ds < owesTotal u c.email ds <;>
      by_cases h3 : ioweMem u c.email ds <;>
      by_cases h4 : iowePaid u c.email ds < ioweTotal u c.email ds <;>
      simp [baseEntry, sub_pos, h1, h2, h3, h4, ← hom, ← him]
  · intro entry hentry
    unfold get_contacts at hentry
    rcases foldl_addIoweSynth_mem u ds users _ _ entry hentry with h2 | h2
    · rcases foldl_addOwesSynth_mem u ds users _ _ entry h2 with h3 | h3
      · obtain ⟨c0, hc0, rfl⟩ := List.mem_map.mp h3
        exact baseEntry_category_cases u ds c0
      · exact Or.inl h3
    · exact Or.inr (Or.inl h2)

/-- Witness for C1 (amended), on the counterexample state: the `owes_me` iff
and the exhaustiveness of the three categories. -/
theorem c1_categorization_amended_witness :
    ((baseEntry "u@x" [demoDebtA, demoDebtB] demoContactC).category = "owes_me" ↔
      (∃ d ∈ [demoDebtA, demoDebtB], d.creditor_email = "u@x" ∧
        d.debtor_email = demoContactC.email) ∧
      owesPaid "u@x" demoContactC.email [demoDebtA, demoDebtB]
        < owesTotal "u@x" demoContactC.email [demoDebtA, demoDebtB]) ∧
    (∀ entry ∈ get_contacts "u@x" [demoContactC] [demoDebtA, demoDebtB] [],
      entry.category = "owes_me" ∨ entry.category = "i_owe" ∨
        entry.category = "neutral") :=
  ⟨(c1_categorization_amended "u@x" [demoDebtA, demoDebtB] demoContactC
      [demoContactC] [] (by decide)).1,
   (c1_categorization_amended "u@x" [demoDebtA, demoDebtB] demoContactC
      [demoContactC] [] (by decide)).2.2.2⟩

end Paymi
